import Mathlib

/-!
Verification development for the rubot repository.

This file gives a shallow embedding of the parts of the code base the
specification talks about:

* the slash-command dispatcher (`src/events/InteractionEvent.ts`,
  function `slashCommandHandler`);
* the course-code parser (`GetOverallEnroll.parseCourseSubjCode`);
* the action-row packing helper
  (`AdvancedCollector.getActionRowsFromComponents`);
* the collector utility (`AdvancedCollector.startNormalCollector`,
  `startInteractionCollector`, `startInteractionEphemeralCollector`,
  `startDoubleCollector`), modelled as explicit state machines driven by a
  script of incoming events.

Theorems about these definitions settle the specification's claims.
-/

namespace Rubot

/-! ## Dispatcher: `slashCommandHandler` (src/events/InteractionEvent.ts)

The dispatcher reads three oracle results from the command object
(`checkCooldownFor`, `commandInfo.guildOnly`, `hasPermissionToRun`); the
implementations of those methods live in `BaseCommand`, outside the embedded
file, so their results are inputs of the embedding.  The dispatcher's own
control flow (dev-mode gate, lookup, cooldown gate, guild gate, cooldown
write, permission branches) is embedded line by line.  Its observable
behaviour is the list of effects it performs: replies sent, cooldown writes,
and running the command body. -/

/-- Result of `BaseCommand.hasPermissionToRun` (structure as used by the
dispatcher: `canRun`, `hasAdmin`, `missingUserPerms`, `missingBotPerms`,
`reason`). -/
structure CanRunInfo where
  canRun : Bool
  hasAdmin : Bool
  missingUserPerms : List String
  missingBotPerms : List String
  reason : Option String
deriving Repr, DecidableEq

/-- The data the dispatcher reads from the resolved command for one
invocation: `commandInfo.guildOnly`, the value `checkCooldownFor(user)`
returns for the invoking user, and the value `hasPermissionToRun` returns
for this context. -/
structure CommandData where
  guildOnly : Bool
  cooldownLeft : Nat
  canRunInfo : CanRunInfo
deriving Repr, DecidableEq

/-- Inputs of one `slashCommandHandler` run: the bot config
(`isProd`, `botOwnerIds`), the invoking user, the interaction's command
name, the registry `Bot.NameCommands`, and whether `interaction.guild` is
present. -/
structure DispatchInput where
  isProd : Bool
  botOwnerIds : List String
  userId : String
  commandName : String
  registry : List (String × CommandData)
  guildPresent : Bool
deriving Repr, DecidableEq

/-- JavaScript truthiness of a `string | null` value: `null` and the empty
string are falsy (used by `if (canRunInfo.reason)`). -/
def strOptTruthy : Option String → Bool
  | none => false
  | some s => !(s == "")

/-- One field of the "Missing Permissions" embed built by the dispatcher.
The payload is the permission list that `addField` renders. -/
inductive EmbedField where
  | missingUserPermsField (perms : List String)
  | missingBotPermsField (perms : List String)
  | unknownErrorField
deriving Repr, DecidableEq

/-- Field list of the no-permission embed, mirroring lines 75-95 of
`InteractionEvent.ts`: when `missingUserPerms` is non-empty the code adds
the member-permission field twice (the duplicated `addField` call), when
`missingBotPerms` is non-empty it adds the bot-permission field, and when
no field was added it adds the unknown-error field. -/
def buildNoPermFields (ci : CanRunInfo) : List EmbedField :=
  let userFields : List EmbedField :=
    if ci.missingUserPerms.isEmpty then []
    else [.missingUserPermsField ci.missingUserPerms,
          .missingUserPermsField ci.missingUserPerms]
  let botFields : List EmbedField :=
    if ci.missingBotPerms.isEmpty then []
    else [.missingBotPermsField ci.missingBotPerms]
  let fields := userFields ++ botFields
  if fields.isEmpty then [.unknownErrorField] else fields

/-- Payload of a reply the dispatcher sends, one constructor per
`interaction.reply` site of `slashCommandHandler`. -/
inductive ReplyPayload where
  | devModeNotice
  | cooldownNotice (remainingMs : Nat)
  | guildOnlyNotice
  | customReason (reason : String)
  | noPermissionEmbed (fields : List EmbedField)
deriving Repr, DecidableEq

/-- An observable effect of one dispatcher run. -/
inductive Effect where
  | reply (payload : ReplyPayload) (ephemeral : Bool)
  | addCooldown
  | runBody
deriving Repr, DecidableEq

/-- Shallow embedding of `slashCommandHandler`, returning the effects it
performs in order.  Branch for branch: the dev-mode gate, the
`Bot.NameCommands.get` lookup with silent return, the cooldown gate, the
guild-only gate, the conditional `addToCooldown`, then the `canRun` /
`reason` / embed branches. -/
def slashCommandHandler (inp : DispatchInput) : List Effect :=
  if !inp.isProd && !(inp.botOwnerIds.contains inp.userId) then
    [.reply .devModeNotice false]
  else
    match inp.registry.lookup inp.commandName with
    | none => []
    | some cmd =>
      if cmd.cooldownLeft > 0 then
        [.reply (.cooldownNotice cmd.cooldownLeft) true]
      else if cmd.guildOnly && !inp.guildPresent then
        [.reply .guildOnlyNotice true]
      else
        let canRunInfo := cmd.canRunInfo
        let cooldownEff : List Effect :=
          if !(inp.botOwnerIds.contains inp.userId) && !canRunInfo.hasAdmin then
            [.addCooldown]
          else []
        if canRunInfo.canRun then
          cooldownEff ++ [.runBody]
        else if strOptTruthy canRunInfo.reason then
          cooldownEff ++ [.reply (.customReason (canRunInfo.reason.getD "")) true]
        else
          cooldownEff ++ [.reply (.noPermissionEmbed (buildNoPermFields canRunInfo)) false]

/-- C6: with the dev-mode gate passed and the command resolved, a positive
remaining cooldown makes the dispatcher reply ephemerally with the
remaining duration and stop: the run's only effect is that reply, so the
command body is not executed and no cooldown write happens. -/
theorem dispatcher_active_cooldown_blocks (inp : DispatchInput) (cmd : CommandData)
    (hgate : inp.isProd = true ∨ inp.botOwnerIds.contains inp.userId = true)
    (hfind : inp.registry.lookup inp.commandName = some cmd)
    (hcd : 0 < cmd.cooldownLeft) :
    slashCommandHandler inp = [.reply (.cooldownNotice cmd.cooldownLeft) true] ∧
    Effect.runBody ∉ slashCommandHandler inp ∧
    Effect.addCooldown ∉ slashCommandHandler inp := by
  have hmain : slashCommandHandler inp = [.reply (.cooldownNotice cmd.cooldownLeft) true] := by
    unfold slashCommandHandler
    have hdev : (!inp.isProd && !(inp.botOwnerIds.contains inp.userId)) = false := by
      rcases hgate with h | h <;>
        simp only [h, Bool.not_true, Bool.false_and, Bool.and_false]
    rw [hdev]
    simp [hfind, hcd]
  refine ⟨hmain, ?_, ?_⟩ <;> simp [hmain]

/-- Witness for `dispatcher_active_cooldown_blocks` at a concrete input. -/
theorem dispatcher_active_cooldown_blocks_witness :
    slashCommandHandler
      ⟨true, [], "u", "help", [("help", ⟨false, 4000, ⟨true, false, [], [], none⟩⟩)], false⟩ =
      [.reply (.cooldownNotice 4000) true] :=
  (dispatcher_active_cooldown_blocks
    ⟨true, [], "u", "help", [("help", ⟨false, 4000, ⟨true, false, [], [], none⟩⟩)], false⟩
    ⟨false, 4000, ⟨true, false, [], [], none⟩⟩ (Or.inl rfl) (by decide) (by decide)).1

/-- C7: once an invocation reaches the permission-check step (dev gate
passed, command found, no active cooldown, guild gate passed), a cooldown
write happens exactly when the user is not a bot owner and the permission
result lacks admin rights — independently of `canRun` and `reason`. -/
theorem dispatcher_cooldown_write_iff (inp : DispatchInput) (cmd : CommandData)
    (hgate : inp.isProd = true ∨ inp.botOwnerIds.contains inp.userId = true)
    (hfind : inp.registry.lookup inp.commandName = some cmd)
    (hcd : cmd.cooldownLeft = 0)
    (hguild : cmd.guildOnly = false ∨ inp.guildPresent = true) :
    (Effect.addCooldown ∈ slashCommandHandler inp ↔
      (inp.botOwnerIds.contains inp.userId = false ∧ cmd.canRunInfo.hasAdmin = false)) := by
  unfold slashCommandHandler
  have hdev : (!inp.isProd && !(inp.botOwnerIds.contains inp.userId)) = false := by
    rcases hgate with h | h <;>
      simp only [h, Bool.not_true, Bool.false_and, Bool.and_false]
  rw [hdev]
  simp only [Bool.false_eq_true, if_false, hfind, hcd]
  have hg : (cmd.guildOnly && !inp.guildPresent) = false := by
    rcases hguild with h | h <;> simp [h]
  simp only [hg, gt_iff_lt, Nat.lt_irrefl, if_false, Bool.false_eq_true]
  by_cases hown : inp.botOwnerIds.contains inp.userId <;>
    by_cases hadmin : cmd.canRunInfo.hasAdmin <;>
      by_cases hrun : cmd.canRunInfo.canRun <;>
        by_cases hreason : strOptTruthy cmd.canRunInfo.reason <;>
          simp [hown, hadmin, hrun, hreason]

/-- Witness for `dispatcher_cooldown_write_iff` at a concrete input. -/
theorem dispatcher_cooldown_write_iff_witness :
    Effect.addCooldown ∈ slashCommandHandler
      ⟨true, ["o"], "u", "help", [("help", ⟨false, 0, ⟨false, false, [], [], none⟩⟩)], false⟩ := by
  exact (dispatcher_cooldown_write_iff
    ⟨true, ["o"], "u", "help", [("help", ⟨false, 0, ⟨false, false, [], [], none⟩⟩)], false⟩
    ⟨false, 0, ⟨false, false, [], [], none⟩⟩ (Or.inl rfl) (by decide) rfl (Or.inl rfl)).2
    ⟨by decide, rfl⟩

/-- C8: when the invocation reaches the permission outcome, the run is
denied, and no (truthy) custom reason is available, the dispatcher replies
with the missing-permission embed.  Its fields list the missing user
permissions (the any-of display) and the missing bot permissions (the
all-of display) in fields of different kinds, and when both lists are
empty the embed holds the unknown-error field asking the user to report. -/
theorem dispatcher_no_perm_diagnostic (inp : DispatchInput) (cmd : CommandData)
    (hgate : inp.isProd = true ∨ inp.botOwnerIds.contains inp.userId = true)
    (hfind : inp.registry.lookup inp.commandName = some cmd)
    (hcd : cmd.cooldownLeft = 0)
    (hguild : cmd.guildOnly = false ∨ inp.guildPresent = true)
    (hrun : cmd.canRunInfo.canRun = false)
    (hreason : strOptTruthy cmd.canRunInfo.reason = false) :
    (Effect.reply (.noPermissionEmbed (buildNoPermFields cmd.canRunInfo)) false
        ∈ slashCommandHandler inp) ∧
    (cmd.canRunInfo.missingUserPerms ≠ [] →
      EmbedField.missingUserPermsField cmd.canRunInfo.missingUserPerms
        ∈ buildNoPermFields cmd.canRunInfo) ∧
    (cmd.canRunInfo.missingBotPerms ≠ [] →
      EmbedField.missingBotPermsField cmd.canRunInfo.missingBotPerms
        ∈ buildNoPermFields cmd.canRunInfo) ∧
    (∀ ps qs, EmbedField.missingUserPermsField ps ≠ EmbedField.missingBotPermsField qs) ∧
    (cmd.canRunInfo.missingUserPerms = [] → cmd.canRunInfo.missingBotPerms = [] →
      buildNoPermFields cmd.canRunInfo = [.unknownErrorField]) := by
  refine ⟨?_, ?_, ?_, ?_, ?_⟩
  · unfold slashCommandHandler
    have hdev : (!inp.isProd && !(inp.botOwnerIds.contains inp.userId)) = false := by
      rcases hgate with h | h <;>
        simp only [h, Bool.not_true, Bool.false_and, Bool.and_false]
    rw [hdev]
    have hg : (cmd.guildOnly && !inp.guildPresent) = false := by
      rcases hguild with h | h <;> simp [h]
    simp [hfind, hcd, hg, hrun, hreason]
  · intro h
    simp [buildNoPermFields, h]
  · intro h
    by_cases hu : cmd.canRunInfo.missingUserPerms = [] <;> simp [buildNoPermFields, h, hu]
  · intro ps qs heq
    exact EmbedField.noConfusion heq
  · intro hu hb
    simp [buildNoPermFields, hu, hb]

/-- Witness for `dispatcher_no_perm_diagnostic` at a concrete input. -/
theorem dispatcher_no_perm_diagnostic_witness :
    Effect.reply
        (.noPermissionEmbed
          (buildNoPermFields ⟨false, false, ["KICK_MEMBERS"], [], none⟩)) false
      ∈ slashCommandHandler
        ⟨true, [], "u", "purge",
          [("purge", ⟨false, 0, ⟨false, false, ["KICK_MEMBERS"], [], none⟩⟩)], true⟩ ∧
    EmbedField.missingUserPermsField ["KICK_MEMBERS"]
      ∈ buildNoPermFields ⟨false, false, ["KICK_MEMBERS"], [], none⟩ := by
  have h := dispatcher_no_perm_diagnostic
    ⟨true, [], "u", "purge",
      [("purge", ⟨false, 0, ⟨false, false, ["KICK_MEMBERS"], [], none⟩⟩)], true⟩
    ⟨false, 0, ⟨false, false, ["KICK_MEMBERS"], [], none⟩⟩
    (Or.inl rfl) (by decide) rfl (Or.inl rfl) rfl rfl
  exact ⟨h.1, h.2.1 (by decide)⟩

/-- C9 counterexample: in development mode a non-owner invoking an unknown
command name still gets a reply (the dev-mode notice), so the dispatcher is
not silent on every unknown command name. -/
theorem unknown_command_not_silent_in_dev_mode :
    (DispatchInput.registry ⟨false, ["owner"], "someone", "nosuch", [], false⟩).lookup
        (DispatchInput.commandName ⟨false, ["owner"], "someone", "nosuch", [], false⟩) = none ∧
    slashCommandHandler ⟨false, ["owner"], "someone", "nosuch", [], false⟩ =
      [.reply .devModeNotice false] := by
  constructor <;> rfl

/-- C9 (amended): provided the dev-mode gate admits the invocation
(production mode, or the invoker is a bot owner), an unknown command name
makes the dispatcher do nothing: no reply, no run, no error. -/
theorem unknown_command_silent (inp : DispatchInput)
    (hgate : inp.isProd = true ∨ inp.botOwnerIds.contains inp.userId = true)
    (hfind : inp.registry.lookup inp.commandName = none) :
    slashCommandHandler inp = [] := by
  unfold slashCommandHandler
  have hdev : (!inp.isProd && !(inp.botOwnerIds.contains inp.userId)) = false := by
    rcases hgate with h | h <;>
      simp only [h, Bool.not_true, Bool.false_and, Bool.and_false]
  rw [hdev]
  simp [hfind]

/-- Witness for `unknown_command_silent` at a concrete input. -/
theorem unknown_command_silent_witness :
    slashCommandHandler ⟨true, [], "someone", "nosuch", [], false⟩ = [] :=
  unknown_command_silent ⟨true, [], "someone", "nosuch", [], false⟩ (Or.inl rfl) rfl

/-! ## Course-code parser: `GetOverallEnroll.parseCourseSubjCode`

JS strings are modelled as lists of code points (`Nat`).  The two index
loops of the source are the `takeWhile`/`dropWhile` split at the first
decimal digit, with the first loop additionally skipping space characters
(`filter`); `toUpperCase` is the ASCII-range per-character uppercase map
and `trim` removes JS whitespace from both ends. -/

/-- `/^\d+$/.test(code[i])` on a single character: a decimal digit. -/
def isDigitCp (c : Nat) : Bool := decide (48 ≤ c ∧ c ≤ 57)

/-- The first loop's continue/append predicate: not a digit (the loop
breaks at the first digit). -/
def notDigitCp (c : Nat) : Bool := !isDigitCp c

/-- `String.prototype.toUpperCase` on one code point (ASCII range). -/
def upCp (c : Nat) : Nat := if 97 ≤ c ∧ c ≤ 122 then c - 32 else c

/-- The white space and line terminator code points removed by
`String.prototype.trim`. -/
def jsWsCp (c : Nat) : Bool :=
  decide (c = 9 ∨ c = 10 ∨ c = 11 ∨ c = 12 ∨ c = 13 ∨ c = 32 ∨ c = 160 ∨
    c = 5760 ∨ (8192 ≤ c ∧ c ≤ 8202) ∨ c = 8232 ∨ c = 8233 ∨ c = 8239 ∨
    c = 8287 ∨ c = 12288 ∨ c = 65279)

/-- `String.prototype.trim`: drop JS whitespace from the front, then from
the back. -/
def jsTrim (l : List Nat) : List Nat := (l.dropWhile jsWsCp).rdropWhile jsWsCp

/-- Shallow embedding of `GetOverallEnroll.parseCourseSubjCode`: the first
loop collects the non-space characters before the first digit, then a
space is appended, then the remainder of the string from the first digit
on, and the result is uppercased and trimmed. -/
def parseCourseSubjCode (code : List Nat) : List Nat :=
  let s := (code.takeWhile notDigitCp).filter (fun c => c != 32)
  let rest := code.dropWhile notDigitCp
  jsTrim ((s ++ 32 :: rest).map upCp)

theorem upCp_32 : upCp 32 = 32 := by decide

theorem upCp_idem (c : Nat) : upCp (upCp c) = upCp c := by
  unfold upCp
  by_cases h : 97 ≤ c ∧ c ≤ 122
  · rw [if_pos h, if_neg (by omega)]
  · rw [if_neg h, if_neg h]

theorem upCp_isDigit (c : Nat) : isDigitCp (upCp c) = isDigitCp c := by
  unfold upCp isDigitCp
  by_cases h : 97 ≤ c ∧ c ≤ 122
  · rw [if_pos h, decide_eq_decide]
    omega
  · rw [if_neg h]

theorem upCp_notDigit (c : Nat) : notDigitCp (upCp c) = notDigitCp c := by
  unfold notDigitCp
  rw [upCp_isDigit]

theorem upCp_ws (c : Nat) : jsWsCp (upCp c) = jsWsCp c := by
  unfold upCp jsWsCp
  by_cases h : 97 ≤ c ∧ c ≤ 122
  · rw [if_pos h, decide_eq_decide]
    omega
  · rw [if_neg h]

theorem upCp_eq_32_iff (c : Nat) : upCp c = 32 ↔ c = 32 := by
  unfold upCp
  by_cases h : 97 ≤ c ∧ c ≤ 122
  · rw [if_pos h]
    omega
  · rw [if_neg h]

theorem upCp_not_lower (c : Nat) : ¬(97 ≤ upCp c ∧ upCp c ≤ 122) := by
  unfold upCp
  by_cases h : 97 ≤ c ∧ c ≤ 122
  · rw [if_pos h]
    omega
  · rw [if_neg h]
    exact h

theorem digit_not_ws {c : Nat} (h : isDigitCp c = true) : jsWsCp c = false := by
  unfold isDigitCp at h
  unfold jsWsCp
  rw [decide_eq_true_eq] at h
  rw [decide_eq_false_iff_not]
  omega

theorem ws_32 : jsWsCp 32 = true := by decide

theorem notDigit_32 : notDigitCp 32 = true := by decide

/-- If the right part of an append keeps an element after trailing-drop,
the trailing-drop of the append only acts on the right part. -/
theorem rdropWhile_append_right {α : Type} {p : α → Bool} (xs ys : List α)
    (h : ys.rdropWhile p ≠ []) :
    (xs ++ ys).rdropWhile p = xs ++ ys.rdropWhile p := by
  unfold List.rdropWhile at h ⊢
  rw [List.reverse_append, List.dropWhile_append]
  have h' : (ys.reverse.dropWhile p).isEmpty = false := by
    cases e : ys.reverse.dropWhile p with
    | nil => exact absurd (by rw [e]; rfl) h
    | cons a t => rfl
  rw [h']
  simp

/-- A nonempty prefix of a cons starts with the same head. -/
theorem prefix_cons_head {α : Type} {l t : List α} {a : α}
    (hp : l <+: a :: t) (hne : l ≠ []) : ∃ t', l = a :: t' := by
  rcases hp with ⟨s, hs⟩
  cases l with
  | nil => exact absurd rfl hne
  | cons b u =>
    simp only [List.cons_append, List.cons.injEq] at hs
    exact ⟨u, by rw [hs.1]⟩

/-- Dropping leading `p`-elements again after a trailing drop of a leading
drop changes nothing. -/
theorem dropWhile_rdropWhile_dropWhile {α : Type} (p : α → Bool) (l : List α) :
    ((l.dropWhile p).rdropWhile p).dropWhile p = (l.dropWhile p).rdropWhile p := by
  cases e : (l.dropWhile p).rdropWhile p with
  | nil => rfl
  | cons a t =>
    have hpre : (l.dropWhile p).rdropWhile p <+: l.dropWhile p :=
      List.rdropWhile_prefix p _
    rw [e] at hpre
    rcases hpre with ⟨r, hr⟩
    have h0 : 0 < (l.dropWhile p).length := by
      rw [← hr]
      simp
    have hget := List.dropWhile_get_zero_not p l h0
    have hgeta : (l.dropWhile p).get ⟨0, h0⟩ = a := by
      rw [List.get_of_eq hr.symm]
      rfl
    rw [hgeta] at hget
    rw [List.dropWhile_cons, if_neg (by simpa using hget)]

theorem jsTrim_idem (l : List Nat) : jsTrim (jsTrim l) = jsTrim l := by
  unfold jsTrim
  rw [dropWhile_rdropWhile_dropWhile]
  exact List.rdropWhile_idempotent _ _

theorem mem_jsTrim {x : Nat} {l : List Nat} (hx : x ∈ jsTrim l) : x ∈ l := by
  unfold jsTrim at hx
  exact (List.dropWhile_suffix jsWsCp).subset
    ((List.rdropWhile_prefix jsWsCp _).subset hx)

/-- A map whose function fixes every element of the list is the identity. -/
theorem map_eq_self_of_fix {α : Type} {f : α → α} {l : List α}
    (h : ∀ x ∈ l, f x = x) : l.map f = l := by
  induction l with
  | nil => rfl
  | cons a t ih =>
    simp only [List.map_cons, h a (List.mem_cons_self a t)]
    rw [ih fun x hx => h x (List.mem_cons_of_mem a hx)]

/-- `parseCourseSubjCode` fixes a digit-free, space-free, uppercase-fixed
list that is already trimmed on both ends. -/
theorem parse_self_noDigit (r : List Nat)
    (hd : ∀ x ∈ r, notDigitCp x = true)
    (h32 : ∀ x ∈ r, x ≠ 32)
    (hfix : ∀ x ∈ r, upCp x = x)
    (hlead : r.dropWhile jsWsCp = r)
    (htrail : r.rdropWhile jsWsCp = r) :
    parseCourseSubjCode r = r := by
  unfold parseCourseSubjCode jsTrim
  rw [List.takeWhile_eq_self_iff.mpr hd, List.dropWhile_eq_nil_iff.mpr hd,
    List.filter_eq_self.mpr (fun a ha => by simpa using h32 a ha)]
  have hmap : (r ++ 32 :: []).map upCp = r ++ [32] := by
    rw [List.map_append]
    rw [map_eq_self_of_fix hfix]
    rfl
  show List.rdropWhile jsWsCp (List.dropWhile jsWsCp ((r ++ 32 :: []).map upCp)) = r
  rw [hmap]
  cases r with
  | nil => rfl
  | cons a t =>
    have hwa : jsWsCp a = false := by
      have := List.dropWhile_eq_self_iff.mp hlead (by simp)
      simpa using this
    rw [List.dropWhile_append]
    have hlead' : (a :: t).dropWhile jsWsCp = a :: t := by
      rw [List.dropWhile_cons, hwa]
      simp
    rw [hlead']
    simp only [List.isEmpty_cons, if_false, Bool.false_eq_true]
    rw [List.rdropWhile_concat_pos jsWsCp _ 32 ws_32, htrail]

/-- `parseCourseSubjCode` fixes a trailing-trimmed, uppercase-fixed list
that starts with a decimal digit. -/
theorem parse_self_digitHead (d : Nat) (R₁ : List Nat)
    (hd : isDigitCp d = true)
    (hfix : ∀ x ∈ d :: R₁, upCp x = x)
    (htrail : (d :: R₁).rdropWhile jsWsCp = d :: R₁) :
    parseCourseSubjCode (d :: R₁) = d :: R₁ := by
  unfold parseCourseSubjCode jsTrim
  have hnd : notDigitCp d = false := by
    unfold notDigitCp
    rw [hd]
    rfl
  have hws : jsWsCp d = false := digit_not_ws hd
  have htake : (d :: R₁).takeWhile notDigitCp = [] := by
    rw [List.takeWhile_cons, if_neg (by simp [hnd])]
  have hdrop : (d :: R₁).dropWhile notDigitCp = d :: R₁ := by
    rw [List.dropWhile_cons, if_neg (by simp [hnd])]
  rw [htake, hdrop]
  show List.rdropWhile jsWsCp (List.dropWhile jsWsCp ((32 :: d :: R₁).map upCp)) = d :: R₁
  have hmap : (32 :: d :: R₁).map upCp = 32 :: d :: R₁ := by
    rw [List.map_cons, upCp_32, map_eq_self_of_fix hfix]
  rw [hmap, List.dropWhile_cons, if_pos ws_32, List.dropWhile_cons,
    if_neg (by simp [hws])]
  exact htrail

/-- `parseCourseSubjCode` fixes a list of the form
`front ++ space ++ digit-led tail` when the front is digit-free,
space-free, uppercase-fixed and starts with a non-whitespace character,
and the tail is uppercase-fixed and trailing-trimmed. -/
theorem parse_self_full (h : Nat) (t : List Nat) (d : Nat) (R₁ : List Nat)
    (hh : jsWsCp h = false)
    (hd : isDigitCp d = true)
    (hPd : ∀ x ∈ h :: t, notDigitCp x = true)
    (hP32 : ∀ x ∈ h :: t, x ≠ 32)
    (hfixP : ∀ x ∈ h :: t, upCp x = x)
    (hfixR : ∀ x ∈ d :: R₁, upCp x = x)
    (htrailR : (d :: R₁).rdropWhile jsWsCp = d :: R₁) :
    parseCourseSubjCode ((h :: t) ++ 32 :: d :: R₁) = (h :: t) ++ 32 :: d :: R₁ := by
  unfold parseCourseSubjCode jsTrim
  have hnd : notDigitCp d = false := by
    unfold notDigitCp
    rw [hd]
    rfl
  have hwsd : jsWsCp d = false := digit_not_ws hd
  have htake : ((h :: t) ++ 32 :: d :: R₁).takeWhile notDigitCp = (h :: t) ++ [32] := by
    rw [List.takeWhile_append_of_pos hPd, List.takeWhile_cons, if_pos notDigit_32,
      List.takeWhile_cons, if_neg (by simp [hnd])]
  have hfilter : ((h :: t) ++ [32]).filter (fun c => c != 32) = h :: t := by
    rw [List.filter_append,
      List.filter_eq_self.mpr (fun a ha => by simpa using hP32 a ha)]
    simp
  have hdrop : ((h :: t) ++ 32 :: d :: R₁).dropWhile notDigitCp = d :: R₁ := by
    have hsplit : (h :: t) ++ 32 :: d :: R₁ = ((h :: t) ++ [32]) ++ d :: R₁ := by simp
    rw [hsplit, List.dropWhile_append_of_pos, List.dropWhile_cons, if_neg (by simp [hnd])]
    intro a ha
    rcases List.mem_append.mp ha with hmem | hmem
    · exact hPd a hmem
    · have : a = 32 := by simpa using hmem
      rw [this]
      exact notDigit_32
  rw [htake, hfilter, hdrop]
  show List.rdropWhile jsWsCp
    (List.dropWhile jsWsCp (((h :: t) ++ 32 :: d :: R₁).map upCp)) =
    (h :: t) ++ 32 :: d :: R₁
  have hmap : ((h :: t) ++ 32 :: d :: R₁).map upCp = (h :: t) ++ 32 :: d :: R₁ := by
    rw [List.map_append, map_eq_self_of_fix hfixP, List.map_cons, upCp_32,
      map_eq_self_of_fix hfixR]
  rw [hmap, List.cons_append, List.dropWhile_cons, if_neg (by simp [hh]),
    ← List.cons_append]
  have hsplit : (h :: t) ++ 32 :: d :: R₁ = ((h :: t) ++ [32]) ++ d :: R₁ := by simp
  rw [hsplit, rdropWhile_append_right _ _ (by rw [htrailR]; simp), htrailR]

/-- Every element of the parser's output is fixed by the uppercase map. -/
theorem parse_elements_fixed (s : List Nat) :
    ∀ c ∈ parseCourseSubjCode s, upCp c = c := by
  intro c hc
  unfold parseCourseSubjCode at hc
  have hc' := mem_jsTrim hc
  rcases List.mem_map.mp hc' with ⟨y, _, rfl⟩
  exact upCp_idem y

/-- The parser's output is a trimmed list. -/
theorem parse_trimmed (s : List Nat) :
    jsTrim (parseCourseSubjCode s) = parseCourseSubjCode s := by
  unfold parseCourseSubjCode
  exact jsTrim_idem _

/-- The head of a non-empty `dropWhile` result fails the predicate. -/
theorem dropWhile_head_false {α : Type} (p : α → Bool) (l : List α) {a : α} {t : List α}
    (e : l.dropWhile p = a :: t) : p a = false := by
  have hid := List.dropWhile_idempotent p l
  rw [e] at hid
  have hne := List.dropWhile_eq_self_iff.mp hid (by simp)
  simpa using hne

/-- The parser is idempotent. -/
theorem parse_idem (s : List Nat) :
    parseCourseSubjCode (parseCourseSubjCode s) = parseCourseSubjCode s := by
  obtain ⟨P, R, hps, hPd, hP32, hPfix, hRfix, hR⟩ : ∃ P R,
      parseCourseSubjCode s = jsTrim (P ++ 32 :: R) ∧
      (∀ c ∈ P, notDigitCp c = true) ∧ (∀ c ∈ P, c ≠ 32) ∧
      (∀ c ∈ P, upCp c = c) ∧ (∀ c ∈ R, upCp c = c) ∧
      (R = [] ∨ ∃ d R', R = d :: R' ∧ isDigitCp d = true) := by
    refine ⟨((s.takeWhile notDigitCp).filter (fun c => c != 32)).map upCp,
      (s.dropWhile notDigitCp).map upCp, ?_, ?_, ?_, ?_, ?_, ?_⟩
    · unfold parseCourseSubjCode
      show jsTrim ((((s.takeWhile notDigitCp).filter fun c => c != 32) ++
        32 :: s.dropWhile notDigitCp).map upCp) = _
      rw [List.map_append, List.map_cons, upCp_32]
    · intro c hc
      rcases List.mem_map.mp hc with ⟨y, hy, rfl⟩
      rw [upCp_notDigit]
      exact List.mem_takeWhile_imp (List.mem_of_mem_filter hy)
    · intro c hc
      rcases List.mem_map.mp hc with ⟨y, hy, rfl⟩
      have hy32 : y ≠ 32 := by simpa using List.of_mem_filter hy
      intro hcon
      exact hy32 ((upCp_eq_32_iff y).mp hcon)
    · intro c hc
      rcases List.mem_map.mp hc with ⟨y, _, rfl⟩
      exact upCp_idem y
    · intro c hc
      rcases List.mem_map.mp hc with ⟨y, _, rfl⟩
      exact upCp_idem y
    · cases e : s.dropWhile notDigitCp with
      | nil =>
        left
        rfl
      | cons d' t' =>
        right
        refine ⟨upCp d', t'.map upCp, rfl, ?_⟩
        rw [upCp_isDigit]
        have hnd := dropWhile_head_false notDigitCp s e
        simpa [notDigitCp] using hnd
  rw [hps]
  cases e : P.dropWhile jsWsCp with
  | nil =>
    have hePR : (P ++ 32 :: R).dropWhile jsWsCp = R.dropWhile jsWsCp := by
      rw [List.dropWhile_append, e]
      simp only [List.isEmpty_nil, if_true]
      rw [List.dropWhile_cons, if_pos ws_32]
    rcases hR with hRnil | ⟨d, R', hRc, hd⟩
    · subst hRnil
      have hval : jsTrim (P ++ 32 :: ([] : List Nat)) = [] := by
        show List.rdropWhile jsWsCp ((P ++ 32 :: ([] : List Nat)).dropWhile jsWsCp) = []
        rw [hePR]
        rfl
      rw [hval]
      decide
    · subst hRc
      have hneR : (d :: R').rdropWhile jsWsCp ≠ [] := by
        intro hcon
        have hws := List.rdropWhile_eq_nil_iff.mp hcon d (by simp)
        rw [digit_not_ws hd] at hws
        exact Bool.false_ne_true hws
      obtain ⟨R₁, hR₀⟩ : ∃ R₁, (d :: R').rdropWhile jsWsCp = d :: R₁ :=
        prefix_cons_head (List.rdropWhile_prefix jsWsCp (d :: R')) hneR
      have hval : jsTrim (P ++ 32 :: d :: R') = d :: R₁ := by
        show List.rdropWhile jsWsCp ((P ++ 32 :: d :: R').dropWhile jsWsCp) = d :: R₁
        rw [hePR]
        rw [List.dropWhile_cons, if_neg (by simp [digit_not_ws hd])]
        exact hR₀
      rw [hval]
      apply parse_self_digitHead d R₁ hd
      · intro x hx
        apply hRfix
        have hx' : x ∈ (d :: R').rdropWhile jsWsCp := by
          rw [hR₀]
          exact hx
        exact (List.rdropWhile_prefix jsWsCp (d :: R')).subset hx'
      · rw [← hR₀]
        exact List.rdropWhile_idempotent jsWsCp (d :: R')
  | cons h t =>
    have hh : jsWsCp h = false := dropWhile_head_false jsWsCp P e
    have hsubP : ∀ x ∈ h :: t, x ∈ P := by
      intro x hx
      refine (List.dropWhile_suffix jsWsCp).subset ?_
      rw [e]
      exact hx
    have hePR : (P ++ 32 :: R).dropWhile jsWsCp = (h :: t) ++ 32 :: R := by
      rw [List.dropWhile_append, e]
      simp
    rcases hR with hRnil | ⟨d, R', hRc, hd⟩
    · subst hRnil
      have hne : (h :: t).rdropWhile jsWsCp ≠ [] := by
        intro hcon
        have hws := List.rdropWhile_eq_nil_iff.mp hcon h (by simp)
        rw [hh] at hws
        exact Bool.false_ne_true hws
      obtain ⟨t₁, ht₁⟩ : ∃ t₁, (h :: t).rdropWhile jsWsCp = h :: t₁ :=
        prefix_cons_head (List.rdropWhile_prefix jsWsCp (h :: t)) hne
      have hval : jsTrim (P ++ 32 :: ([] : List Nat)) = h :: t₁ := by
        show List.rdropWhile jsWsCp
          ((P ++ 32 :: ([] : List Nat)).dropWhile jsWsCp) = h :: t₁
        rw [hePR]
        rw [show (h :: t) ++ 32 :: ([] : List Nat) = (h :: t) ++ [32] from rfl]
        rw [List.rdropWhile_concat_pos jsWsCp _ 32 ws_32, ht₁]
      rw [hval]
      have hsub1 : ∀ x ∈ h :: t₁, x ∈ P := by
        intro x hx
        apply hsubP
        have hx' : x ∈ (h :: t).rdropWhile jsWsCp := by
          rw [ht₁]
          exact hx
        exact (List.rdropWhile_prefix jsWsCp (h :: t)).subset hx'
      apply parse_self_noDigit
      · exact fun x hx => hPd x (hsub1 x hx)
      · exact fun x hx => hP32 x (hsub1 x hx)
      · exact fun x hx => hPfix x (hsub1 x hx)
      · rw [List.dropWhile_cons, if_neg (by simp [hh])]
      · rw [← ht₁]
        exact List.rdropWhile_idempotent jsWsCp (h :: t)
    · subst hRc
      have hneR : (d :: R').rdropWhile jsWsCp ≠ [] := by
        intro hcon
        have hws := List.rdropWhile_eq_nil_iff.mp hcon d (by simp)
        rw [digit_not_ws hd] at hws
        exact Bool.false_ne_true hws
      obtain ⟨R₁, hR₀⟩ : ∃ R₁, (d :: R').rdropWhile jsWsCp = d :: R₁ :=
        prefix_cons_head (List.rdropWhile_prefix jsWsCp (d :: R')) hneR
      have hval : jsTrim (P ++ 32 :: d :: R') = (h :: t) ++ 32 :: d :: R₁ := by
        show List.rdropWhile jsWsCp ((P ++ 32 :: d :: R').dropWhile jsWsCp) =
          (h :: t) ++ 32 :: d :: R₁
        rw [hePR]
        rw [show (h :: t) ++ 32 :: d :: R' = ((h :: t) ++ [32]) ++ d :: R' by simp]
        rw [rdropWhile_append_right _ _ hneR, hR₀]
        simp
      rw [hval]
      apply parse_self_full h t d R₁ hh hd
      · exact fun x hx => hPd x (hsubP x hx)
      · exact fun x hx => hP32 x (hsubP x hx)
      · exact fun x hx => hPfix x (hsubP x hx)
      · intro x hx
        apply hRfix
        have hx' : x ∈ (d :: R').rdropWhile jsWsCp := by
          rw [hR₀]
          exact hx
        exact (List.rdropWhile_prefix jsWsCp (d :: R')).subset hx'
      · rw [← hR₀]
        exact List.rdropWhile_idempotent jsWsCp (d :: R')

/-- On digit-free input the parser's output contains no space. -/
theorem parse_noDigit_no_space (s : List Nat)
    (h : ∀ c ∈ s, isDigitCp c = false) : 32 ∉ parseCourseSubjCode s := by
  have hrest : s.dropWhile notDigitCp = [] :=
    List.dropWhile_eq_nil_iff.mpr (fun x hx => by simp [notDigitCp, h x hx])
  have hP32 : ∀ c ∈ ((s.takeWhile notDigitCp).filter (fun c => c != 32)).map upCp,
      c ≠ 32 := by
    intro c hc
    rcases List.mem_map.mp hc with ⟨y, hy, rfl⟩
    have hy32 : y ≠ 32 := by simpa using List.of_mem_filter hy
    intro hcon
    exact hy32 ((upCp_eq_32_iff y).mp hcon)
  have hshape : parseCourseSubjCode s =
      List.rdropWhile jsWsCp
        ((((s.takeWhile notDigitCp).filter (fun c => c != 32)).map upCp ++
          [32]).dropWhile jsWsCp) := by
    unfold parseCourseSubjCode jsTrim
    rw [hrest]
    show List.rdropWhile jsWsCp (List.dropWhile jsWsCp
      ((((s.takeWhile notDigitCp).filter fun c => c != 32) ++ 32 :: []).map upCp)) = _
    rw [List.map_append, List.map_cons, List.map_nil, upCp_32]
  intro hmem
  rw [hshape] at hmem
  cases e : ((s.takeWhile notDigitCp).filter (fun c => c != 32)).map upCp
      |>.dropWhile jsWsCp with
  | nil =>
    rw [List.dropWhile_append, e] at hmem
    simp only [List.isEmpty_nil, if_true] at hmem
    rw [List.dropWhile_cons, if_pos ws_32, List.dropWhile_nil,
      List.rdropWhile_nil] at hmem
    exact List.not_mem_nil 32 hmem
  | cons a t =>
    rw [List.dropWhile_append, e] at hmem
    simp only [List.isEmpty_cons, Bool.false_eq_true, if_false] at hmem
    rw [List.rdropWhile_concat_pos jsWsCp _ 32 ws_32] at hmem
    have h32mem : (32 : Nat) ∈ ((s.takeWhile notDigitCp).filter
        (fun c => c != 32)).map upCp := by
      refine (List.dropWhile_suffix jsWsCp).subset ?_
      rw [e]
      exact (List.rdropWhile_prefix jsWsCp (a :: t)).subset hmem
    exact hP32 32 h32mem rfl

/-- C10: `parseCourseSubjCode` returns an uppercase string (every code
point is fixed by `toUpperCase`, so no lowercase letter remains) with no
leading or trailing whitespace (`trim` of the result is the result); the
function is idempotent; and on input without a decimal digit the result
contains no space character (code point 32). -/
theorem parseCourseSubjCode_spec (s : List Nat) :
    (parseCourseSubjCode s).map upCp = parseCourseSubjCode s ∧
    (∀ c ∈ parseCourseSubjCode s, ¬(97 ≤ c ∧ c ≤ 122)) ∧
    jsTrim (parseCourseSubjCode s) = parseCourseSubjCode s ∧
    parseCourseSubjCode (parseCourseSubjCode s) = parseCourseSubjCode s ∧
    ((∀ c ∈ s, isDigitCp c = false) → 32 ∉ parseCourseSubjCode s) := by
  refine ⟨map_eq_self_of_fix (parse_elements_fixed s), ?_, parse_trimmed s,
    parse_idem s, parse_noDigit_no_space s⟩
  intro c hc
  rw [← parse_elements_fixed s c hc]
  exact upCp_not_lower c

/-- Witness for `parseCourseSubjCode_spec`: concrete evaluations, with the
digit-free hypothesis discharged at the input "math". -/
theorem parseCourseSubjCode_spec_witness :
    parseCourseSubjCode (parseCourseSubjCode [99, 115, 101, 32, 49, 48, 48]) =
      parseCourseSubjCode [99, 115, 101, 32, 49, 48, 48] ∧
    32 ∉ parseCourseSubjCode [109, 97, 116, 104] :=
  ⟨(parseCourseSubjCode_spec [99, 115, 101, 32, 49, 48, 48]).2.2.2.1,
    (parseCourseSubjCode_spec [109, 97, 116, 104]).2.2.2.2 (by decide)⟩

/-! ## Row packing: `AdvancedCollector.getActionRowsFromComponents`

A component is modelled by its `type` tag (the code only inspects
`x.type === "SELECT_MENU"` and `x.type === "BUTTON"`) plus an identifier
so distinct components stay distinct.  A `MessageActionRow` is the list of
components added to it. -/

inductive ComponentType where
  | selectMenu
  | button
  | other
deriving Repr, DecidableEq

/-- A `BaseMessageComponent`: its `type` tag and an identity. -/
structure MessageComponent where
  ctype : ComponentType
  cid : Nat
deriving Repr, DecidableEq

/-- `MAX_ACTION_ROWS` from `AdvancedCollector`. -/
def MAX_ACTION_ROWS : Nat := 5

/-- Groups of at most five, mirroring the button loop (`i += 5` with the
inner loop taking up to 5 elements while `i + j` is in range). -/
def chunksOfFive {α : Type} : List α → List (List α)
  | [] => []
  | a :: rest => (a :: rest.take 4) :: chunksOfFive (rest.drop 4)
termination_by l => l.length
decreasing_by
  simp only [List.length_cons]
  have hle := List.length_drop 4 rest
  omega

/-- Shallow embedding of `getActionRowsFromComponents`.  The select-menu
loop runs `min(selectMenus.length, MAX_ACTION_ROWS)` times pushing one
single-component row each and leaving `rowsUsed = min(...)`; the button
loop starts at multiples of 5 below `min(buttons.length,
5 * (MAX_ACTION_ROWS - rowsUsed))` and pushes a row of up to five
buttons, which is the 5-chunking of the first
`5 * (MAX_ACTION_ROWS - rowsUsed)` buttons. -/
def getActionRowsFromComponents (options : List MessageComponent) :
    List (List MessageComponent) :=
  let selectMenus := options.filter (fun x => x.ctype = ComponentType.selectMenu)
  let menuRows := (selectMenus.take MAX_ACTION_ROWS).map (fun s => [s])
  let rowsUsed := min selectMenus.length MAX_ACTION_ROWS
  let buttons := options.filter (fun x => x.ctype = ComponentType.button)
  let buttonRows := chunksOfFive (buttons.take (5 * (MAX_ACTION_ROWS - rowsUsed)))
  menuRows ++ buttonRows

theorem chunksOfFive_length_le {α : Type} :
    ∀ (n : Nat) (l : List α), l.length ≤ 5 * n → (chunksOfFive l).length ≤ n := by
  intro n
  induction n with
  | zero =>
    intro l hl
    have : l = [] := List.eq_nil_of_length_eq_zero (by omega)
    rw [this]
    simp [chunksOfFive]
  | succ n ih =>
    intro l hl
    cases l with
    | nil => simp [chunksOfFive]
    | cons a rest =>
      rw [chunksOfFive]
      simp only [List.length_cons]
      have hrec := ih (rest.drop 4) (by
        have := List.length_drop 4 rest
        simp only [List.length_cons] at hl
        omega)
      omega

theorem chunksOfFive_mem {α : Type} :
    ∀ (n : Nat) (l : List α), l.length ≤ n →
      ∀ r ∈ chunksOfFive l, r.length ≤ 5 ∧ ∀ x ∈ r, x ∈ l := by
  intro n
  induction n with
  | zero =>
    intro l hl r hr
    have : l = [] := List.eq_nil_of_length_eq_zero (by omega)
    subst this
    simp [chunksOfFive] at hr
  | succ n ih =>
    intro l hl r hr
    cases l with
    | nil => simp [chunksOfFive] at hr
    | cons a rest =>
      rw [chunksOfFive] at hr
      rcases List.mem_cons.mp hr with hr1 | hr2
      · subst hr1
        constructor
        · have := List.length_take 4 rest
          simp only [List.length_cons]
          omega
        · intro x hx
          rcases List.mem_cons.mp hx with hx1 | hx2
          · subst hx1
            exact List.mem_cons_self _ _
          · exact List.mem_cons_of_mem a (List.take_subset 4 rest hx2)
      · have hrec := ih (rest.drop 4) (by
          have := List.length_drop 4 rest
          simp only [List.length_cons] at hl
          omega) r hr2
        refine ⟨hrec.1, fun x hx => ?_⟩
        exact List.mem_cons_of_mem a (List.drop_subset 4 rest (hrec.2 x hx))

/-- C5: for every component list, the returned rows never exceed
`MAX_ACTION_ROWS`; every row is either a single select menu (a select
menu occupies a row by itself) or a group of at most five buttons; excess
components are dropped (the function is total and just omits them). -/
theorem getActionRowsFromComponents_spec (options : List MessageComponent) :
    (getActionRowsFromComponents options).length ≤ MAX_ACTION_ROWS ∧
    (∀ r ∈ getActionRowsFromComponents options,
      (∃ s, s.ctype = ComponentType.selectMenu ∧ r = [s]) ∨
      (r.length ≤ 5 ∧ ∀ b ∈ r, b.ctype = ComponentType.button)) := by
  constructor
  · unfold getActionRowsFromComponents
    rw [List.length_append, List.length_map, List.length_take]
    have hb := chunksOfFive_length_le
      (MAX_ACTION_ROWS -
        min (options.filter (fun x => x.ctype = ComponentType.selectMenu)).length
          MAX_ACTION_ROWS)
      ((options.filter (fun x => x.ctype = ComponentType.button)).take
        (5 * (MAX_ACTION_ROWS -
          min (options.filter (fun x => x.ctype = ComponentType.selectMenu)).length
            MAX_ACTION_ROWS)))
      (by rw [List.length_take]; omega)
    unfold MAX_ACTION_ROWS at *
    omega
  · intro r hr
    unfold getActionRowsFromComponents at hr
    rcases List.mem_append.mp hr with hm | hbrow
    · left
      rcases List.mem_map.mp hm with ⟨s, hs, rfl⟩
      refine ⟨s, ?_, rfl⟩
      have hmem : s ∈ options.filter (fun x => x.ctype = ComponentType.selectMenu) :=
        List.take_subset _ _ hs
      simpa using List.of_mem_filter hmem
    · right
      have hprops := chunksOfFive_mem _ _ le_rfl r hbrow
      refine ⟨hprops.1, fun b hbmem => ?_⟩
      have hbb : b ∈ options.filter (fun x => x.ctype = ComponentType.button) :=
        List.take_subset _ _ (hprops.2 b hbmem)
      simpa using List.of_mem_filter hbb

/-- Witness for `getActionRowsFromComponents_spec` at a concrete list of
one select menu and seven buttons (membership hypotheses discharged by
evaluation). -/
theorem getActionRowsFromComponents_spec_witness :
    (getActionRowsFromComponents
      [⟨ComponentType.selectMenu, 0⟩, ⟨ComponentType.button, 1⟩,
       ⟨ComponentType.button, 2⟩, ⟨ComponentType.button, 3⟩,
       ⟨ComponentType.button, 4⟩, ⟨ComponentType.button, 5⟩,
       ⟨ComponentType.button, 6⟩, ⟨ComponentType.button, 7⟩]).length ≤
      MAX_ACTION_ROWS ∧
    ((∃ s, s.ctype = ComponentType.selectMenu ∧
        [(⟨ComponentType.selectMenu, 0⟩ : MessageComponent)] = [s]) ∨
      ([(⟨ComponentType.selectMenu, 0⟩ : MessageComponent)].length ≤ 5 ∧
        ∀ b ∈ [(⟨ComponentType.selectMenu, 0⟩ : MessageComponent)],
          b.ctype = ComponentType.button)) :=
  ⟨(getActionRowsFromComponents_spec _).1,
    (getActionRowsFromComponents_spec
      [⟨ComponentType.selectMenu, 0⟩, ⟨ComponentType.button, 1⟩,
       ⟨ComponentType.button, 2⟩, ⟨ComponentType.button, 3⟩,
       ⟨ComponentType.button, 4⟩, ⟨ComponentType.button, 5⟩,
       ⟨ComponentType.button, 6⟩, ⟨ComponentType.button, 7⟩]).2
      [⟨ComponentType.selectMenu, 0⟩] (by decide)⟩

/-! ## Collector utility: `AdvancedCollector`

The collectors are event-driven: discord.js delivers `collect` events for
each qualifying message or component interaction during `duration`, then
an `end` event whose reason is `"time"` on timeout, `"user"` for an
explicit `stop()` and `"limit"` when a `max` count is reached; `stop()`
fires the `end` handler synchronously and a stopped collector emits
nothing further.  A run is the fold of the handlers over the script of
events arriving within `duration`, followed by the timeout.  The promise
around it resolves at most once: the first `resolve` call wins and later
calls are ignored (`resolveCalls` counts all calls made). -/

/-- A message observed by the message collector. -/
structure CMessage where
  authorId : String
  content : String
deriving Repr, DecidableEq

/-- The bot's own message: the capabilities the collectors query. -/
structure BotMsg where
  deletable : Bool
  editable : Bool
deriving Repr, DecidableEq

/-- What `targetChannel.send` would produce for this run.

Modelled from the spec: `GeneralUtilities.tryExecuteAsync` wraps the send
and is not among the embedded sources; per the spec, "any error thrown
while sending the initial message is swallowed, yielding a null session",
so the sending oracle is an `Option` (`none` models a throw). -/
structure CollectorEnv where
  sendResult : Option BotMsg
deriving Repr, DecidableEq

/-- The option-bag fields the embedded collector functions read. -/
structure CollectorOptions where
  targetAuthorId : String
  msgOptionsDefined : Bool
  oldMsg : Option BotMsg
  deleteBaseMsgAfterComplete : Bool
  acknowledgeImmediately : Bool
  clearInteractionsAfterComplete : Bool
  cancelFlag : Option String
  deleteResponseMessage : Bool
deriving Repr, DecidableEq

/-- `initSendCollectorMessage`: if `msgOptions` is defined, send (null when
the send throws); otherwise fall back to `oldMsg`; otherwise null. -/
def initSendCollectorMessage (opts : CollectorOptions) (env : CollectorEnv) :
    Option BotMsg :=
  if opts.msgOptionsDefined then env.sendResult
  else opts.oldMsg

/-- `String.prototype.toLowerCase` (per-character, as in the ASCII range),
written over the character list so it evaluates by `decide`. -/
def lowerStr (s : String) : String := ⟨s.data.map Char.toLower⟩

/-- `cancelFlag && cancelFlag.toLowerCase() === c.content.toLowerCase()`:
a `null` or empty (falsy) cancel flag disables the check. -/
def isCancelMessage (cancelFlag : Option String) (c : CMessage) : Bool :=
  match cancelFlag with
  | none => false
  | some cf => !(cf == "") && (lowerStr cf == lowerStr c.content)

/-- `options.deleteBaseMsgAfterComplete && botMsg && botMsg.deletable`. -/
def botMsgDeletable : Option BotMsg → Bool
  | some b => b.deletable
  | none => false

/-! ### `startNormalCollector` -/

/-- State of one `startNormalCollector` session: the promise cell, the
count of `resolve` calls, whether the message collector was stopped, and
the message side effects performed. -/
structure NCState (T : Type) where
  resolved : Option (Option T)
  resolveCalls : Nat
  collectorStopped : Bool
  deletedResponses : Nat
  baseMsgDeleted : Bool
deriving DecidableEq

def ncInit (T : Type) : NCState T := ⟨none, 0, false, 0, false⟩

/-- `resolve(x)` on the surrounding promise: only the first call sets the
cell. -/
def ncResolve {T : Type} (st : NCState T) (v : Option T) : NCState T :=
  { st with resolveCalls := st.resolveCalls + 1,
            resolved := match st.resolved with
              | none => some v
              | some w => some w }

/-- The `"end"` handler (lines 114-118): delete the bot message when
configured, and `resolve(null)` when the end reason is `"time"`. -/
def ncOnEnd {T : Type} (opts : CollectorOptions) (botMsg : Option BotMsg)
    (reason : String) (st : NCState T) : NCState T :=
  let st1 :=
    if opts.deleteBaseMsgAfterComplete && botMsgDeletable botMsg then
      { st with baseMsgDeleted := true }
    else st
  if reason = "time" then ncResolve st1 none else st1

/-- `msgCollector.stop()`: mark the collector stopped and fire its `"end"`
handler with reason `"user"`; a no-op on an already ended collector. -/
def ncStop {T : Type} (opts : CollectorOptions) (botMsg : Option BotMsg)
    (st : NCState T) : NCState T :=
  if st.collectorStopped then st
  else ncOnEnd opts botMsg "user" { st with collectorStopped := true }

/-- The `"collect"` handler (lines 97-112): messages from other authors are
filtered out; the response is optionally deleted; a (truthy) cancel-flag
match resolves null immediately; otherwise the extractor runs and a
defined value stops the collector and resolves it. -/
def ncOnCollect {T : Type} (opts : CollectorOptions) (botMsg : Option BotMsg)
    (f : CMessage → Option T) (st : NCState T) (c : CMessage) : NCState T :=
  if st.collectorStopped then st
  else if c.authorId ≠ opts.targetAuthorId then st
  else
    let st1 :=
      if opts.deleteResponseMessage then
        { st with deletedResponses := st.deletedResponses + 1 }
      else st
    if isCancelMessage opts.cancelFlag c then ncResolve st1 none
    else
      match f c with
      | none => st1
      | some v => ncResolve (ncStop opts botMsg st1) (some v)

/-- A `startNormalCollector` run: send (or reuse) the bot message — note
the source keeps going even when it is null — fold the collect handler
over the messages arriving within `duration`, then time out unless the
collector was stopped. -/
def startNormalCollector {T : Type} (opts : CollectorOptions) (env : CollectorEnv)
    (f : CMessage → Option T) (script : List CMessage) : NCState T :=
  let botMsg := initSendCollectorMessage opts env
  let st := script.foldl (ncOnCollect opts botMsg f) (ncInit T)
  if st.collectorStopped then st else ncOnEnd opts botMsg "time" st

/-! ### `startDoubleCollector` -/

/-- The value carried by the promise of `startDoubleCollector`
(`T | MessageComponentInteraction | null`); interactions are identified by
a number. -/
inductive DCResult (T : Type) where
  | value (v : T)
  | interaction (iid : Nat)
  | nullRes
deriving DecidableEq

/-- An event arriving in the channel during the double collection: a
message, or a component interaction on the bot message. -/
inductive DCEvent where
  | msg (c : CMessage)
  | click (iid : Nat) (userId : String)
deriving Repr, DecidableEq

/-- State of one `startDoubleCollector` session: promise cell and resolve
count, the two collectors' running flags, the one-shot `hasCalled` guard
with the count of guarded cleanup executions, and the side effects. -/
structure DCState (T : Type) where
  resolved : Option (DCResult T)
  resolveCalls : Nat
  msgActive : Bool
  intActive : Bool
  hasCalled : Bool
  cleanupRuns : Nat
  baseMsgDeleted : Bool
  interactionsCleared : Bool
  deletedResponses : Nat
  acknowledgedClicks : Nat
deriving DecidableEq

def dcInit (T : Type) : DCState T :=
  ⟨none, 0, true, true, false, 0, false, false, 0, 0⟩

/-- `resolve(x)`: only the first call sets the promise cell. -/
def dcResolve {T : Type} (st : DCState T) (v : DCResult T) : DCState T :=
  { st with resolveCalls := st.resolveCalls + 1,
            resolved := match st.resolved with
              | none => some v
              | some w => some w }

/-- `acknowledgeDeletion(r)` (lines 256-266): guarded by the one-shot
`hasCalled` flag, it deletes the bot message (if configured and deletable)
or else clears its components (if configured and editable), then resolves
null when the end reason is `"time"`. -/
def acknowledgeDeletion {T : Type} (opts : CollectorOptions) (botMsg : BotMsg)
    (reason : String) (st : DCState T) : DCState T :=
  if st.hasCalled then st
  else
    let st1 := { st with hasCalled := true, cleanupRuns := st.cleanupRuns + 1 }
    let st2 :=
      if opts.deleteBaseMsgAfterComplete && botMsg.deletable then
        { st1 with baseMsgDeleted := true }
      else if opts.clearInteractionsAfterComplete && botMsg.editable then
        { st1 with interactionsCleared := true }
      else st1
    if reason = "time" then dcResolve st2 DCResult.nullRes else st2

/-- `msgCollector.stop()` / its timeout: end the message collector with the
given reason, firing the shared `end` handler (`acknowledgeDeletion`). -/
def dcStopMsg {T : Type} (opts : CollectorOptions) (botMsg : BotMsg)
    (reason : String) (st : DCState T) : DCState T :=
  if st.msgActive then
    acknowledgeDeletion opts botMsg reason { st with msgActive := false }
  else st

/-- `interactionCollector.stop()` / its `max: 1` stop / its timeout. -/
def dcStopInt {T : Type} (opts : CollectorOptions) (botMsg : BotMsg)
    (reason : String) (st : DCState T) : DCState T :=
  if st.intActive then
    acknowledgeDeletion opts botMsg reason { st with intActive := false }
  else st

/-- The message `"collect"` handler (lines 217-238): optionally delete the
response; a (truthy) cancel-flag match stops the interaction collector and
resolves null (the message collector keeps running); a defined extractor
value resolves it and stops both collectors. -/
def dcOnMsg {T : Type} (opts : CollectorOptions) (botMsg : BotMsg)
    (f : CMessage → Option T) (st : DCState T) (c : CMessage) : DCState T :=
  if !st.msgActive then st
  else if c.authorId ≠ opts.targetAuthorId then st
  else
    let st1 :=
      if opts.deleteResponseMessage then
        { st with deletedResponses := st.deletedResponses + 1 }
      else st
    if isCancelMessage opts.cancelFlag c then
      dcResolve (dcStopInt opts botMsg "user" st1) DCResult.nullRes
    else
      match f c with
      | none => st1
      | some v =>
        dcStopMsg opts botMsg "user"
          (dcStopInt opts botMsg "user" (dcResolve st1 (DCResult.value v)))

/-- The interaction `"collect"` handler (lines 240-245): optionally
acknowledge, resolve with the interaction, stop the message collector;
then the interaction collector stops itself (`max: 1`, reason
`"limit"`). -/
def dcOnClick {T : Type} (opts : CollectorOptions) (botMsg : BotMsg)
    (st : DCState T) (iid : Nat) (uid : String) : DCState T :=
  if !st.intActive then st
  else if uid ≠ opts.targetAuthorId then st
  else
    let st1 :=
      if opts.acknowledgeImmediately then
        { st with acknowledgedClicks := st.acknowledgedClicks + 1 }
      else st
    dcStopInt opts botMsg "limit"
      (dcStopMsg opts botMsg "user" (dcResolve st1 (DCResult.interaction iid)))

/-- One event step of the double collector. -/
def dcStep {T : Type} (opts : CollectorOptions) (botMsg : BotMsg)
    (f : CMessage → Option T) (st : DCState T) : DCEvent → DCState T
  | .msg c => dcOnMsg opts botMsg f st c
  | .click iid uid => dcOnClick opts botMsg st iid uid

/-- End of `duration`: each still-running collector ends with `"time"`. -/
def dcTimeout {T : Type} (opts : CollectorOptions) (botMsg : BotMsg)
    (st : DCState T) : DCState T :=
  dcStopInt opts botMsg "time" (dcStopMsg opts botMsg "time" st)

/-- Result of a `startDoubleCollector` call: the early `null` return when
no bot message could be obtained (line 203), or the final session state. -/
inductive DCRun (T : Type) where
  | earlyNull
  | session (final : DCState T)
deriving DecidableEq

/-- A `startDoubleCollector` run over the events arriving within
`duration`. -/
def startDoubleCollector {T : Type} (opts : CollectorOptions) (env : CollectorEnv)
    (f : CMessage → Option T) (script : List DCEvent) : DCRun T :=
  match initSendCollectorMessage opts env with
  | none => DCRun.earlyNull
  | some botMsg =>
    DCRun.session (dcTimeout opts botMsg (script.foldl (dcStep opts botMsg f) (dcInit T)))

/-- The value the caller receives from `startDoubleCollector`. -/
def dcOutcome {T : Type} : DCRun T → Option (DCResult T)
  | .earlyNull => some DCResult.nullRes
  | .session st => st.resolved

/-! ### `startInteractionCollector` and the ephemeral variant -/

/-- Effects and result of one `startInteractionCollector` session (after a
bot message was obtained): the awaited interaction (`none` models the
await throwing on timeout, caught and ignored), the optional
acknowledgement, and the `finally` cleanup. -/
structure ICState where
  result : Option Nat
  acknowledged : Bool
  baseMsgDeleted : Bool
  interactionsCleared : Bool
deriving Repr, DecidableEq

/-- Result of a `startInteractionCollector` call: early `null` when no bot
message could be obtained (line 167), or the finished session. -/
inductive ICRun where
  | earlyNull
  | finished (st : ICState)
deriving Repr, DecidableEq

/-- `startInteractionCollector`: send/reuse the bot message (null → return
null); await one component interaction (`clickResult`, `none` on timeout
whose error is caught); acknowledge when configured; in `finally` delete
the message, or else clear its components when editable. -/
def startInteractionCollector (opts : CollectorOptions) (env : CollectorEnv)
    (clickResult : Option Nat) : ICRun :=
  match initSendCollectorMessage opts env with
  | none => ICRun.earlyNull
  | some b =>
    ICRun.finished
      ⟨clickResult,
       opts.acknowledgeImmediately && clickResult.isSome,
       opts.deleteBaseMsgAfterComplete,
       !opts.deleteBaseMsgAfterComplete &&
         (opts.clearInteractionsAfterComplete && b.editable)⟩

/-- The value the caller receives from `startInteractionCollector`. -/
def icResult : ICRun → Option Nat
  | .earlyNull => none
  | .finished st => st.result

/-- `startInteractionEphemeralCollector`: no owned message; await one
interaction with the unique-identifier filter (`clickResult` is the
matching interaction, `none` on timeout whose error is caught), optionally
acknowledging it.  Returns the interaction and whether it was
acknowledged. -/
def startInteractionEphemeralCollector (opts : CollectorOptions)
    (clickResult : Option Nat) : Option Nat × Bool :=
  (clickResult, opts.acknowledgeImmediately && clickResult.isSome)

theorem user_ne_time : ¬(("user" : String) = "time") := by decide

theorem limit_ne_time : ¬(("limit" : String) = "time") := by decide

/-- C1: combined-wait race.  With a bot message in place, a qualifying
message `m` (target author, not a cancel match, extractor defined) and a
component click by the target author arriving in either order: the session
resolves exactly once (one effective `resolve`; `resolveCalls = 1`), to
the first event's result; the one-shot `hasCalled` guard has run the
cleanup exactly once (`cleanupRuns = 1`); both collectors are stopped at
the end, and the losing branch is cancelled by the winning handler itself
(after the first event the other collector is already inactive, so it
emits nothing further). -/
theorem startDoubleCollector_race (T : Type) (opts : CollectorOptions)
    (env : CollectorEnv) (b : BotMsg) (f : CMessage → Option T) (m : CMessage)
    (v : T) (iid : Nat)
    (hb : initSendCollectorMessage opts env = some b)
    (hau : m.authorId = opts.targetAuthorId)
    (hnc : isCancelMessage opts.cancelFlag m = false)
    (hf : f m = some v) :
    (∃ st, startDoubleCollector opts env f
        [DCEvent.msg m, DCEvent.click iid opts.targetAuthorId] = DCRun.session st ∧
      st.resolved = some (DCResult.value v) ∧ st.resolveCalls = 1 ∧
      st.cleanupRuns = 1 ∧ st.hasCalled = true ∧
      st.msgActive = false ∧ st.intActive = false) ∧
    (∃ st, startDoubleCollector opts env f
        [DCEvent.click iid opts.targetAuthorId, DCEvent.msg m] = DCRun.session st ∧
      st.resolved = some (DCResult.interaction iid) ∧ st.resolveCalls = 1 ∧
      st.cleanupRuns = 1 ∧ st.hasCalled = true ∧
      st.msgActive = false ∧ st.intActive = false) ∧
    (dcStep opts b f (dcInit T) (DCEvent.msg m)).intActive = false ∧
    (dcStep opts b f (dcInit T) (DCEvent.click iid opts.targetAuthorId)).msgActive = false := by
  unfold startDoubleCollector
  rw [hb]
  refine ⟨⟨_, rfl, ?_, ?_, ?_, ?_, ?_, ?_⟩, ⟨_, rfl, ?_, ?_, ?_, ?_, ?_, ?_⟩, ?_, ?_⟩ <;>
  · by_cases hd1 : opts.deleteResponseMessage = true <;>
    by_cases hd2 : (opts.deleteBaseMsgAfterComplete && b.deletable) = true <;>
    by_cases hd3 : (opts.clearInteractionsAfterComplete && b.editable) = true <;>
    by_cases hd4 : opts.acknowledgeImmediately = true <;>
      simp [dcStep, dcOnMsg, dcOnClick, dcResolve, dcStopMsg, dcStopInt,
        acknowledgeDeletion, dcTimeout, dcInit, hau, hnc, hf, hd1, hd2, hd3, hd4,
        user_ne_time, limit_ne_time]

/-- Witness for `startDoubleCollector_race` at concrete options, message,
extractor and click. -/
theorem startDoubleCollector_race_witness :
    ∃ st, startDoubleCollector (T := Nat)
        ⟨"u", true, none, true, true, true, some "cancel", true⟩
        ⟨some ⟨true, true⟩⟩
        (fun c => if c.content = "7" then some 7 else none)
        [DCEvent.msg ⟨"u", "7"⟩, DCEvent.click 1 "u"] = DCRun.session st ∧
      st.resolved = some (DCResult.value 7) ∧ st.resolveCalls = 1 ∧
      st.cleanupRuns = 1 ∧ st.hasCalled = true ∧
      st.msgActive = false ∧ st.intActive = false :=
  (startDoubleCollector_race Nat
    ⟨"u", true, none, true, true, true, some "cancel", true⟩
    ⟨some ⟨true, true⟩⟩ ⟨true, true⟩
    (fun c => if c.content = "7" then some 7 else none)
    ⟨"u", "7"⟩ 7 1 rfl rfl (by decide) (by decide)).1

/-! ### The promise resolves at most once: persistence lemmas -/

theorem ncResolve_keeps {T : Type} (st : NCState T) (w : Option T) (v : Option T)
    (h : st.resolved = some w) : (ncResolve st v).resolved = some w := by
  simp [ncResolve, h]

theorem ncOnEnd_keeps {T : Type} (opts : CollectorOptions) (bm : Option BotMsg)
    (r : String) (st : NCState T) (w : Option T) (h : st.resolved = some w) :
    (ncOnEnd opts bm r st).resolved = some w := by
  by_cases hr : r = "time" <;>
    by_cases hd : (opts.deleteBaseMsgAfterComplete && botMsgDeletable bm) = true <;>
      simp [ncOnEnd, ncResolve, hr, hd, h]

theorem ncStop_keeps {T : Type} (opts : CollectorOptions) (bm : Option BotMsg)
    (st : NCState T) (w : Option T) (h : st.resolved = some w) :
    (ncStop opts bm st).resolved = some w := by
  by_cases hs : st.collectorStopped = true
  · simp [ncStop, hs, h]
  · simp only [ncStop, hs, Bool.false_eq_true, if_false]
    exact ncOnEnd_keeps opts bm "user" _ w h

theorem ncResolve_isSome {T : Type} (st : NCState T) (v : Option T) :
    (ncResolve st v).resolved ≠ none := by
  unfold ncResolve
  cases st.resolved <;> simp

theorem ncOnCollect_keeps {T : Type} (opts : CollectorOptions) (bm : Option BotMsg)
    (f : CMessage → Option T) (st : NCState T) (c : CMessage) (w : Option T)
    (h : st.resolved = some w) : (ncOnCollect opts bm f st c).resolved = some w := by
  unfold ncOnCollect
  by_cases hs : st.collectorStopped = true
  · rw [if_pos hs]
    exact h
  · rw [if_neg hs]
    by_cases hau : c.authorId = opts.targetAuthorId
    · rw [if_neg (by simp [hau] : ¬(c.authorId ≠ opts.targetAuthorId))]
      have h1 : (if opts.deleteResponseMessage = true then
          { st with deletedResponses := st.deletedResponses + 1 } else st).resolved =
          some w := by
        split <;> simpa using h
      by_cases hc : isCancelMessage opts.cancelFlag c = true
      · rw [if_pos hc]
        exact ncResolve_keeps _ w _ h1
      · rw [if_neg hc]
        rcases he : f c with _ | v
        · exact h1
        · exact ncResolve_keeps _ w _ (ncStop_keeps opts bm _ w h1)
    · rw [if_pos hau]
      exact h

theorem nc_foldl_keeps {T : Type} (opts : CollectorOptions) (bm : Option BotMsg)
    (f : CMessage → Option T) (w : Option T) :
    ∀ (q : List CMessage) (st : NCState T), st.resolved = some w →
      (q.foldl (ncOnCollect opts bm f) st).resolved = some w := by
  intro q
  induction q with
  | nil => exact fun st h => h
  | cons c q ih =>
    intro st h
    exact ih _ (ncOnCollect_keeps opts bm f st c w h)

/-- The normal collector only stops after resolving. -/
theorem ncOnCollect_stop_inv {T : Type} (opts : CollectorOptions) (bm : Option BotMsg)
    (f : CMessage → Option T) (st : NCState T) (c : CMessage)
    (hI : st.collectorStopped = true → st.resolved ≠ none) :
    (ncOnCollect opts bm f st c).collectorStopped = true →
      (ncOnCollect opts bm f st c).resolved ≠ none := by
  unfold ncOnCollect
  by_cases hs : st.collectorStopped = true
  · rw [if_pos hs]
    exact hI
  · rw [if_neg hs]
    by_cases hau : c.authorId = opts.targetAuthorId
    · rw [if_neg (by simp [hau] : ¬(c.authorId ≠ opts.targetAuthorId))]
      have h1 : (if opts.deleteResponseMessage = true then
          { st with deletedResponses := st.deletedResponses + 1 } else st).collectorStopped =
          st.collectorStopped := by
        split <;> rfl
      have h2 : (if opts.deleteResponseMessage = true then
          { st with deletedResponses := st.deletedResponses + 1 } else st).resolved =
          st.resolved := by
        split <;> rfl
      by_cases hc : isCancelMessage opts.cancelFlag c = true
      · rw [if_pos hc]
        intro _
        exact ncResolve_isSome _ _
      · rw [if_neg hc]
        rcases he : f c with _ | v
        · have hcomb : (if opts.deleteResponseMessage = true then
              { st with deletedResponses := st.deletedResponses + 1 }
              else st).collectorStopped = true →
              (if opts.deleteResponseMessage = true then
                { st with deletedResponses := st.deletedResponses + 1 }
                else st).resolved ≠ none := by
            rw [h1, h2]
            exact hI
          exact hcomb
        · intro _
          exact ncResolve_isSome _ _
    · rw [if_pos hau]
      exact hI

theorem nc_foldl_stop_inv {T : Type} (opts : CollectorOptions) (bm : Option BotMsg)
    (f : CMessage → Option T) :
    ∀ (p : List CMessage) (st : NCState T),
      (st.collectorStopped = true → st.resolved ≠ none) →
      ((p.foldl (ncOnCollect opts bm f) st).collectorStopped = true →
        (p.foldl (ncOnCollect opts bm f) st).resolved ≠ none) := by
  intro p
  induction p with
  | nil => exact fun st h => h
  | cons c q ih =>
    intro st h
    exact ih _ (ncOnCollect_stop_inv opts bm f st c h)

theorem dcResolve_keeps {T : Type} (st : DCState T) (w v : DCResult T)
    (h : st.resolved = some w) : (dcResolve st v).resolved = some w := by
  simp [dcResolve, h]

theorem dcResolve_exists {T : Type} (st : DCState T) (v : DCResult T) :
    ∃ w, (dcResolve st v).resolved = some w := by
  unfold dcResolve
  cases st.resolved <;> simp

theorem ackDel_keeps {T : Type} (opts : CollectorOptions) (b : BotMsg) (r : String)
    (st : DCState T) (w : DCResult T) (h : st.resolved = some w) :
    (acknowledgeDeletion opts b r st).resolved = some w := by
  unfold acknowledgeDeletion
  by_cases hg : st.hasCalled = true
  · rw [if_pos hg]
    exact h
  · rw [if_neg hg]
    by_cases hr : r = "time"
    · rw [if_pos hr]
      refine dcResolve_keeps _ w _ ?_
      split
      · exact h
      · split
        · exact h
        · exact h
    · rw [if_neg hr]
      split
      · exact h
      · split
        · exact h
        · exact h

theorem ackDel_resolved_of_ne_time {T : Type} (opts : CollectorOptions) (b : BotMsg)
    (r : String) (st : DCState T) (hr : r ≠ "time") :
    (acknowledgeDeletion opts b r st).resolved = st.resolved := by
  unfold acknowledgeDeletion
  by_cases hg : st.hasCalled = true
  · rw [if_pos hg]
  · rw [if_neg hg, if_neg hr]
    split
    · rfl
    · split
      · rfl
      · rfl

theorem dcStopMsg_keeps {T : Type} (opts : CollectorOptions) (b : BotMsg) (r : String)
    (st : DCState T) (w : DCResult T) (h : st.resolved = some w) :
    (dcStopMsg opts b r st).resolved = some w := by
  unfold dcStopMsg
  by_cases hm : st.msgActive = true
  · rw [if_pos hm]
    exact ackDel_keeps opts b r _ w h
  · rw [if_neg hm]
    exact h

theorem dcStopInt_keeps {T : Type} (opts : CollectorOptions) (b : BotMsg) (r : String)
    (st : DCState T) (w : DCResult T) (h : st.resolved = some w) :
    (dcStopInt opts b r st).resolved = some w := by
  unfold dcStopInt
  by_cases hm : st.intActive = true
  · rw [if_pos hm]
    exact ackDel_keeps opts b r _ w h
  · rw [if_neg hm]
    exact h

theorem dcStopInt_resolved_of_ne_time {T : Type} (opts : CollectorOptions) (b : BotMsg)
    (r : String) (st : DCState T) (hr : r ≠ "time") :
    (dcStopInt opts b r st).resolved = st.resolved := by
  unfold dcStopInt
  by_cases hm : st.intActive = true
  · rw [if_pos hm]
    exact ackDel_resolved_of_ne_time opts b r _ hr
  · rw [if_neg hm]

theorem dcOnMsg_keeps {T : Type} (opts : CollectorOptions) (b : BotMsg)
    (f : CMessage → Option T) (st : DCState T) (c : CMessage) (w : DCResult T)
    (h : st.resolved = some w) : (dcOnMsg opts b f st c).resolved = some w := by
  unfold dcOnMsg
  by_cases hm : (!st.msgActive) = true
  · rw [if_pos hm]
    exact h
  · rw [if_neg hm]
    by_cases hau : c.authorId = opts.targetAuthorId
    · rw [if_neg (by simp [hau] : ¬(c.authorId ≠ opts.targetAuthorId))]
      have h1 : (if opts.deleteResponseMessage = true then
          { st with deletedResponses := st.deletedResponses + 1 } else st).resolved =
          some w := by
        split
        · exact h
        · exact h
      by_cases hc : isCancelMessage opts.cancelFlag c = true
      · rw [if_pos hc]
        exact dcResolve_keeps _ w _ (dcStopInt_keeps opts b _ _ w h1)
      · rw [if_neg hc]
        rcases he : f c with _ | v
        · exact h1
        · exact dcStopMsg_keeps opts b _ _ w
            (dcStopInt_keeps opts b _ _ w (dcResolve_keeps _ w _ h1))
    · rw [if_pos hau]
      exact h

theorem dcOnClick_keeps {T : Type} (opts : CollectorOptions) (b : BotMsg)
    (st : DCState T) (iid : Nat) (uid : String) (w : DCResult T)
    (h : st.resolved = some w) : (dcOnClick opts b st iid uid).resolved = some w := by
  unfold dcOnClick
  by_cases hm : (!st.intActive) = true
  · rw [if_pos hm]
    exact h
  · rw [if_neg hm]
    by_cases hau : uid = opts.targetAuthorId
    · rw [if_neg (by simp [hau] : ¬(uid ≠ opts.targetAuthorId))]
      have h1 : (if opts.acknowledgeImmediately = true then
          { st with acknowledgedClicks := st.acknowledgedClicks + 1 } else st).resolved =
          some w := by
        split
        · exact h
        · exact h
      exact dcStopInt_keeps opts b _ _ w
        (dcStopMsg_keeps opts b _ _ w (dcResolve_keeps _ w _ h1))
    · rw [if_pos hau]
      exact h

theorem dcStep_keeps {T : Type} (opts : CollectorOptions) (b : BotMsg)
    (f : CMessage → Option T) (st : DCState T) (e : DCEvent) (w : DCResult T)
    (h : st.resolved = some w) : (dcStep opts b f st e).resolved = some w := by
  cases e with
  | msg c => exact dcOnMsg_keeps opts b f st c w h
  | click iid uid => exact dcOnClick_keeps opts b st iid uid w h

theorem dc_foldl_keeps {T : Type} (opts : CollectorOptions) (b : BotMsg)
    (f : CMessage → Option T) (w : DCResult T) :
    ∀ (q : List DCEvent) (st : DCState T), st.resolved = some w →
      (q.foldl (dcStep opts b f) st).resolved = some w := by
  intro q
  induction q with
  | nil => exact fun st h => h
  | cons e q ih =>
    intro st h
    exact ih _ (dcStep_keeps opts b f st e w h)

theorem dcTimeout_keeps {T : Type} (opts : CollectorOptions) (b : BotMsg)
    (st : DCState T) (w : DCResult T) (h : st.resolved = some w) :
    (dcTimeout opts b st).resolved = some w := by
  exact dcStopInt_keeps opts b _ _ w (dcStopMsg_keeps opts b _ _ w h)

/-- In the double collector, the message collector only becomes inactive
after the promise has resolved. -/
theorem dcStep_msg_inv {T : Type} (opts : CollectorOptions) (b : BotMsg)
    (f : CMessage → Option T) (st : DCState T) (e : DCEvent)
    (hI : st.resolved = none → st.msgActive = true) :
    (dcStep opts b f st e).resolved = none → (dcStep opts b f st e).msgActive = true := by
  cases e with
  | msg c =>
    show (dcOnMsg opts b f st c).resolved = none → (dcOnMsg opts b f st c).msgActive = true
    unfold dcOnMsg
    by_cases hm : (!st.msgActive) = true
    · rw [if_pos hm]
      exact hI
    · rw [if_neg hm]
      by_cases hau : c.authorId = opts.targetAuthorId
      · rw [if_neg (by simp [hau] : ¬(c.authorId ≠ opts.targetAuthorId))]
        have hact : st.msgActive = true := by
          by_contra hcon
          exact hm (by simp [Bool.not_eq_true] at hcon ⊢; exact hcon)
        by_cases hc : isCancelMessage opts.cancelFlag c = true
        · rw [if_pos hc]
          intro hres
          obtain ⟨w, hw⟩ := dcResolve_exists
            (dcStopInt opts b "user"
              (if opts.deleteResponseMessage = true then
                { st with deletedResponses := st.deletedResponses + 1 } else st))
            DCResult.nullRes
          rw [hw] at hres
          exact absurd hres (by simp)
        · rw [if_neg hc]
          rcases he : f c with _ | v
          · have hgoal : (if opts.deleteResponseMessage = true then
                { st with deletedResponses := st.deletedResponses + 1 }
                else st).msgActive = true := by
              split
              · exact hact
              · exact hact
            exact fun _ => hgoal
          · intro hres
            obtain ⟨w, hw⟩ := dcResolve_exists
              (if opts.deleteResponseMessage = true then
                { st with deletedResponses := st.deletedResponses + 1 } else st)
              (DCResult.value v)
            have := dcStopMsg_keeps opts b "user" _ w
              (dcStopInt_keeps opts b "user" _ w hw)
            rw [this] at hres
            exact absurd hres (by simp)
      · rw [if_pos hau]
        exact hI
  | click iid uid =>
    show (dcOnClick opts b st iid uid).resolved = none →
      (dcOnClick opts b st iid uid).msgActive = true
    unfold dcOnClick
    by_cases hm : (!st.intActive) = true
    · rw [if_pos hm]
      exact hI
    · rw [if_neg hm]
      by_cases hau : uid = opts.targetAuthorId
      · rw [if_neg (by simp [hau] : ¬(uid ≠ opts.targetAuthorId))]
        intro hres
        obtain ⟨w, hw⟩ := dcResolve_exists
          (if opts.acknowledgeImmediately = true then
            { st with acknowledgedClicks := st.acknowledgedClicks + 1 } else st)
          (DCResult.interaction iid)
        have := dcStopInt_keeps opts b "limit" _ w
          (dcStopMsg_keeps opts b "user" _ w hw)
        rw [this] at hres
        exact absurd hres (by simp)
      · rw [if_pos hau]
        exact hI

theorem dc_foldl_msg_inv {T : Type} (opts : CollectorOptions) (b : BotMsg)
    (f : CMessage → Option T) :
    ∀ (p : List DCEvent) (st : DCState T),
      (st.resolved = none → st.msgActive = true) →
      ((p.foldl (dcStep opts b f) st).resolved = none →
        (p.foldl (dcStep opts b f) st).msgActive = true) := by
  intro p
  induction p with
  | nil => exact fun st h => h
  | cons e q ih =>
    intro st h
    exact ih _ (dcStep_msg_inv opts b f st e h)

theorem ncResolve_none {T : Type} (st : NCState T) (v : Option T)
    (h : st.resolved = none) : (ncResolve st v).resolved = some v := by
  simp [ncResolve, h]

theorem dcResolve_none {T : Type} (st : DCState T) (v : DCResult T)
    (h : st.resolved = none) : (dcResolve st v).resolved = some v := by
  simp [dcResolve, h]

/-- C3 (amended: nonempty token): with a configured non-empty cancel token
and an extractor of any behaviour, a collected message from the target
author whose body equals the token case-insensitively — arriving at any
point while the session is still unresolved — resolves the operation to
the cancellation outcome `null`, never to a matched value.  This holds for
`startNormalCollector` and for the message branch of
`startDoubleCollector`. -/
theorem cancel_token_always_cancels (T : Type) (opts : CollectorOptions)
    (env : CollectorEnv) (f : CMessage → Option T) (cf : String) (m : CMessage)
    (hcf : opts.cancelFlag = some cf) (hne : cf ≠ "")
    (hau : m.authorId = opts.targetAuthorId)
    (hbody : lowerStr cf = lowerStr m.content) :
    (∀ p q : List CMessage,
      (p.foldl (ncOnCollect opts (initSendCollectorMessage opts env) f)
        (ncInit T)).resolved = none →
      (startNormalCollector opts env f (p ++ m :: q)).resolved = some none) ∧
    (∀ (b : BotMsg) (p q : List DCEvent),
      initSendCollectorMessage opts env = some b →
      (p.foldl (dcStep opts b f) (dcInit T)).resolved = none →
      dcOutcome (startDoubleCollector opts env f (p ++ DCEvent.msg m :: q)) =
        some DCResult.nullRes) := by
  have hcanc : isCancelMessage opts.cancelFlag m = true := by
    unfold isCancelMessage
    rw [hcf]
    simp [hne, hbody]
  constructor
  · intro p q hres
    unfold startNormalCollector
    show (if (List.foldl (ncOnCollect opts (initSendCollectorMessage opts env) f)
          (ncInit T) (p ++ m :: q)).collectorStopped = true
        then List.foldl (ncOnCollect opts (initSendCollectorMessage opts env) f)
          (ncInit T) (p ++ m :: q)
        else ncOnEnd opts (initSendCollectorMessage opts env) "time"
          (List.foldl (ncOnCollect opts (initSendCollectorMessage opts env) f)
            (ncInit T) (p ++ m :: q))).resolved = some none
    rw [List.foldl_append, List.foldl_cons]
    have hstop : (p.foldl (ncOnCollect opts (initSendCollectorMessage opts env) f)
        (ncInit T)).collectorStopped = false := by
      by_contra hcon
      rw [Bool.not_eq_false] at hcon
      exact nc_foldl_stop_inv opts (initSendCollectorMessage opts env) f p (ncInit T)
        (by intro hbad; exact absurd hbad (by simp [ncInit])) hcon hres
    generalize List.foldl (ncOnCollect opts (initSendCollectorMessage opts env) f)
      (ncInit T) p = st0 at hres hstop ⊢
    have hstepA : (ncOnCollect opts (initSendCollectorMessage opts env) f
        st0 m).resolved = some none := by
      unfold ncOnCollect
      rw [if_neg (by simp [hstop]), if_neg (by simp [hau] :
        ¬(m.authorId ≠ opts.targetAuthorId)), if_pos hcanc]
      refine ncResolve_none _ none ?_
      split
      · exact hres
      · exact hres
    have hkept := nc_foldl_keeps opts (initSendCollectorMessage opts env) f none q _
      hstepA
    split
    · exact hkept
    · exact ncOnEnd_keeps opts (initSendCollectorMessage opts env) "time" _ none hkept
  · intro b p q hb hres
    unfold startDoubleCollector
    rw [hb]
    show (dcTimeout opts b _).resolved = some DCResult.nullRes
    rw [List.foldl_append, List.foldl_cons]
    have hmact : (p.foldl (dcStep opts b f) (dcInit T)).msgActive = true :=
      dc_foldl_msg_inv opts b f p (dcInit T) (fun _ => rfl) hres
    generalize List.foldl (dcStep opts b f) (dcInit T) p = st0 at hres hmact ⊢
    have hstepA : (dcStep opts b f st0 (DCEvent.msg m)).resolved =
        some DCResult.nullRes := by
      show (dcOnMsg opts b f _ m).resolved = some DCResult.nullRes
      unfold dcOnMsg
      rw [if_neg (by simp [hmact]), if_neg (by simp [hau] :
        ¬(m.authorId ≠ opts.targetAuthorId)), if_pos hcanc]
      refine dcResolve_none _ DCResult.nullRes ?_
      rw [dcStopInt_resolved_of_ne_time opts b "user" _ user_ne_time]
      split
      · exact hres
      · exact hres
    exact dcTimeout_keeps opts b _ DCResult.nullRes
      (dc_foldl_keeps opts b f DCResult.nullRes q _ hstepA)

/-- Witness for `cancel_token_always_cancels` at concrete options, token
and message (both collectors, empty surrounding scripts). -/
theorem cancel_token_always_cancels_witness :
    (startNormalCollector (T := Nat)
      ⟨"u", false, some ⟨true, true⟩, false, false, false, some "cancel", false⟩
      ⟨none⟩ (fun _ => some 7) [⟨"u", "CANCEL"⟩]).resolved = some none ∧
    dcOutcome (startDoubleCollector (T := Nat)
      ⟨"u", false, some ⟨true, true⟩, false, false, false, some "cancel", false⟩
      ⟨none⟩ (fun _ => some 7) [DCEvent.msg ⟨"u", "CANCEL"⟩]) =
      some DCResult.nullRes := by
  have h := cancel_token_always_cancels Nat
    ⟨"u", false, some ⟨true, true⟩, false, false, false, some "cancel", false⟩
    ⟨none⟩ (fun _ => some 7) "cancel" ⟨"u", "CANCEL"⟩ rfl (by decide) rfl (by decide)
  exact ⟨h.1 [] [] rfl, h.2 ⟨true, true⟩ [] [] rfl rfl⟩

/-- C3 counterexample: the cancel token `""` is a configured token
(`cancelFlag` is not null) and the collected message body `""` equals it
case-insensitively, yet the collector resolves to the matched value
produced by the extractor, because the code's truthiness test
(`cancelFlag && ...`) skips the check for the empty string. -/
theorem empty_cancel_token_not_honored :
    lowerStr "" = lowerStr "" ∧
    (startNormalCollector (T := Nat)
      ⟨"u", false, some ⟨true, true⟩, false, false, false, some "", false⟩
      ⟨none⟩ (fun _ => some 7) [⟨"u", ""⟩]).resolved = some (some 7) :=
  ⟨rfl, by decide⟩

/-- C2 (evaluation at the failing input): with cancel token "cancel" and
an extractor that would match, a collected "CANCEL" message resolves the
text-only wait to `null` — the very same value produced by the pure
timeout run — so the cancellation outcome is not distinguishable from the
timeout outcome (it is distinguishable from a matched value, which is
always non-null). -/
theorem cancel_resolves_same_value_as_timeout :
    (startNormalCollector (T := Nat)
      ⟨"u", false, some ⟨true, true⟩, false, false, false, some "cancel", false⟩
      ⟨none⟩ (fun _ => some 7) [⟨"u", "CANCEL"⟩]).resolved = some none ∧
    (startNormalCollector (T := Nat)
      ⟨"u", false, some ⟨true, true⟩, false, false, false, some "cancel", false⟩
      ⟨none⟩ (fun _ => some 7) []).resolved = some none ∧
    (startNormalCollector (T := Nat)
      ⟨"u", false, some ⟨true, true⟩, false, false, false, some "cancel", false⟩
      ⟨none⟩ (fun _ => some 7) [⟨"u", "CANCEL"⟩]).resolved =
      (startNormalCollector (T := Nat)
        ⟨"u", false, some ⟨true, true⟩, false, false, false, some "cancel", false⟩
        ⟨none⟩ (fun _ => some 7) []).resolved := by
  refine ⟨by decide, by decide, by decide⟩

/-- C4 counterexample: in the text-only wait, a send failure (swallowed to
a null bot message) does not abort the operation — the collector still
runs and a qualifying message yields a matched value, not the no-result
outcome. -/
theorem send_failure_normal_collector_still_matches :
    initSendCollectorMessage
      ⟨"u", true, none, true, false, false, some "cancel", false⟩ ⟨none⟩ = none ∧
    (startNormalCollector (T := Nat)
      ⟨"u", true, none, true, false, false, some "cancel", false⟩ ⟨none⟩
      (fun _ => some 7) [⟨"u", "hello"⟩]).resolved = some (some 7) :=
  ⟨rfl, by decide⟩

/-- C4 (amended): a send failure is swallowed in every mode; the combined
wait and the owned component wait then return the no-result outcome
(null) without collecting, while the text-only wait proceeds without an
owned message (it still yields null on timeout, though a qualifying
message can still match); and in every mode the timeout of the underlying
wait primitive is caught and yields the normal no-result outcome. -/
theorem collector_failure_semantics (T : Type) (opts : CollectorOptions)
    (env : CollectorEnv) (f : CMessage → Option T)
    (hms : opts.msgOptionsDefined = true) (hsend : env.sendResult = none) :
    (∀ script, startDoubleCollector opts env f script = DCRun.earlyNull) ∧
    (∀ script, dcOutcome (startDoubleCollector opts env f script) =
      some DCResult.nullRes) ∧
    (∀ click, startInteractionCollector opts env click = ICRun.earlyNull) ∧
    (∀ click, icResult (startInteractionCollector opts env click) = none) ∧
    ((startNormalCollector opts env f []).resolved = some none) ∧
    (∀ (opts' : CollectorOptions) (env' : CollectorEnv) (f' : CMessage → Option T),
      (startNormalCollector opts' env' f' []).resolved = some none ∧
      dcOutcome (startDoubleCollector opts' env' f' []) = some DCResult.nullRes ∧
      icResult (startInteractionCollector opts' env' none) = none ∧
      startInteractionEphemeralCollector opts' none = (none, false)) := by
  have hinit : initSendCollectorMessage opts env = none := by
    simp [initSendCollectorMessage, hms, hsend]
  have hnormal : ∀ (opts' : CollectorOptions) (env' : CollectorEnv)
      (f' : CMessage → Option T),
      (startNormalCollector opts' env' f' []).resolved = some none := by
    intro opts' env' f'
    show (ncOnEnd opts' (initSendCollectorMessage opts' env') "time"
      (ncInit T)).resolved = some none
    unfold ncOnEnd
    rw [if_pos (rfl : ("time" : String) = "time")]
    refine ncResolve_none _ none ?_
    split
    · rfl
    · rfl
  have hdblTimeout : ∀ (opts' : CollectorOptions) (env' : CollectorEnv)
      (f' : CMessage → Option T),
      dcOutcome (startDoubleCollector opts' env' f' []) = some DCResult.nullRes := by
    intro opts' env' f'
    rcases hinit' : initSendCollectorMessage opts' env' with _ | b
    · unfold startDoubleCollector
      rw [hinit']
      rfl
    · unfold startDoubleCollector
      rw [hinit']
      show (dcTimeout opts' b (dcInit T)).resolved = some DCResult.nullRes
      unfold dcTimeout
      have h1 : (dcStopMsg opts' b "time" (dcInit T)).resolved =
          some DCResult.nullRes := by
        unfold dcStopMsg
        have hc1 : (dcInit T).msgActive = true := by rfl
        rw [if_pos hc1]
        unfold acknowledgeDeletion
        have hc2 : ¬(({ dcInit T with msgActive := false} :
            DCState T).hasCalled = true) := by simp [dcInit]
        rw [if_neg hc2]
        rw [if_pos (rfl : ("time" : String) = "time")]
        refine dcResolve_none _ _ ?_
        split
        · rfl
        · split
          · rfl
          · rfl
      exact dcStopInt_keeps opts' b "time" _ _ h1
  refine ⟨?_, ?_, ?_, ?_, hnormal opts env f, ?_⟩
  · intro script
    unfold startDoubleCollector
    rw [hinit]
  · intro script
    unfold startDoubleCollector
    rw [hinit]
    rfl
  · intro click
    unfold startInteractionCollector
    rw [hinit]
  · intro click
    unfold startInteractionCollector
    rw [hinit]
    rfl
  · intro opts' env' f'
    refine ⟨hnormal opts' env' f', hdblTimeout opts' env' f', ?_, ?_⟩
    · rcases hinit' : initSendCollectorMessage opts' env' with _ | b
      · unfold startInteractionCollector
        rw [hinit']
        rfl
      · unfold startInteractionCollector
        rw [hinit']
        rfl
    · simp [startInteractionEphemeralCollector]

/-- Witness for `collector_failure_semantics` at a concrete failing send. -/
theorem collector_failure_semantics_witness :
    startDoubleCollector (T := Nat)
      ⟨"u", true, none, false, false, false, none, false⟩ ⟨none⟩
      (fun _ => some 7) [DCEvent.msg ⟨"u", "x"⟩] = DCRun.earlyNull ∧
    (startNormalCollector (T := Nat)
      ⟨"u", true, none, false, false, false, none, false⟩ ⟨none⟩
      (fun _ => some 7) []).resolved = some none := by
  have h := collector_failure_semantics Nat
    ⟨"u", true, none, false, false, false, none, false⟩ ⟨none⟩
    (fun _ => some 7) rfl rfl
  exact ⟨h.1 _, h.2.2.2.2.1⟩
